import Mathlib

/-!
Verification of the SensorPulse ingester core (MQTT transport client,
payload normalizer, write batcher, storage writer).

The Python sources are shallowly embedded as executable Lean definitions:

* `src/ingester/parser.py`   → `JsonValue`, `ParsedReading`, `parse`,
  `extract_float`, `extract_int`, `should_ignore_topic`, `extract_device_name`.
* `src/ingester/database.py` → `Row`, `upsertOne`, `writeBatch`
  (the `ON CONFLICT (time, topic) DO UPDATE` batch insert), `WriterState`,
  `write_readings`, `BatchState`, `addReading` (the `BatchWriter`), and a
  two-task interleaving model of the `asyncio.Lock` discipline of
  `BatchWriter.add` / `BatchWriter._flush`.
* `src/ingester/mqtt_client.py` → `MqttState`, `on_message`.

Python-specific behaviour that the code relies on is modelled explicitly:
`float(...)`/`int(...)` coercion (`pyFloat`, `pyInt`, with `int(True) = 1`,
`int(False) = 0` and truncation toward zero for floats), dictionary
truthiness (`pyTruthy`), and `str.split("/")` (`splitChar`).
JSON numbers are modelled exactly as rationals.  Timestamps
(`datetime.utcnow()` / `datetime.now(timezone.utc)`) are modelled as an
abstract clock value passed in by the caller.
-/

/-- JSON values as decoded from MQTT payloads: the model of the Python values
produced by `json.loads` (None, bool, int/float, str, list, dict).  Numbers
are modelled exactly as rationals, covering both Python int and float. -/
inductive JsonValue where
  | null : JsonValue
  | bool (b : Bool) : JsonValue
  | num (q : Rat) : JsonValue
  | str (s : String) : JsonValue
  | arr (elems : List JsonValue) : JsonValue
  | obj (fields : List (String × JsonValue)) : JsonValue

/-- Model of the Python check `value is None`. -/
def JsonValue.isNull : JsonValue → Bool
  | JsonValue.null => true
  | _ => false

/-- A decoded JSON object payload (Python dict), as an association list. -/
abbrev Payload := List (String × JsonValue)

/-- Model of Python truthiness (`bool(v)`) on decoded JSON values:
None, False, 0, "", [], {} are falsy, everything else truthy. -/
def pyTruthy : JsonValue → Bool
  | JsonValue.null => false
  | JsonValue.bool b => b
  | JsonValue.num q => q ≠ 0
  | JsonValue.str s => s ≠ ""
  | JsonValue.arr elems => ¬elems.isEmpty
  | JsonValue.obj fields => ¬fields.isEmpty

/-- Numeric value of a list of decimal digit characters. -/
def digitsVal (cs : List Char) : Nat :=
  cs.foldl (fun a c => a * 10 + (c.toNat - 48)) 0

/-- Model of leading/trailing whitespace stripping done by Python numeric
string conversion. -/
def trimChars (cs : List Char) : List Char :=
  ((cs.dropWhile (fun c => c.isWhitespace)).reverse.dropWhile
    (fun c => c.isWhitespace)).reverse

/-- Unsigned decimal string body accepted by `float(str)`: digits with an
optional decimal point (model of the common Python cases; exponents and
inf/nan forms are not modelled, they never occur in sensor payloads). -/
def pyFloatCore (cs : List Char) : Option Rat :=
  let ip := cs.takeWhile (fun c => c.isDigit)
  let rest := cs.dropWhile (fun c => c.isDigit)
  match rest with
  | [] => if ip.isEmpty then none else some (digitsVal ip : Rat)
  | c :: fp =>
    if c = '.' ∧ fp.all (fun d => d.isDigit) ∧ ¬(ip.isEmpty ∧ fp.isEmpty) then
      some ((digitsVal ip : Rat) + (digitsVal fp : Rat) / ((10 : Rat) ^ fp.length))
    else
      none

/-- Model of Python `float(s)` on strings: optional whitespace, optional
sign, decimal body; raises (returns `none`) otherwise. -/
def pyFloatString (s : String) : Option Rat :=
  match trimChars s.toList with
  | '-' :: rest => (pyFloatCore rest).map (fun q => -q)
  | '+' :: rest => pyFloatCore rest
  | cs => pyFloatCore cs

/-- Model of Python `int(s)` on strings: optional whitespace, optional sign,
decimal digits only (no fractional part). -/
def pyIntString (s : String) : Option Int :=
  match trimChars s.toList with
  | '-' :: rest =>
    if ¬rest.isEmpty ∧ rest.all (fun d => d.isDigit) then
      some (-(digitsVal rest : Int))
    else none
  | '+' :: rest =>
    if ¬rest.isEmpty ∧ rest.all (fun d => d.isDigit) then
      some (digitsVal rest : Int)
    else none
  | cs =>
    if ¬cs.isEmpty ∧ cs.all (fun d => d.isDigit) then
      some (digitsVal cs : Int)
    else none

/-- Model of Python `float(value)` on decoded JSON values: booleans coerce
(`float(True) = 1.0`), numbers pass through, numeric strings parse; `None`,
lists and dicts raise TypeError (returns `none` for ValueError/TypeError,
the exceptions caught by `_extract_float`). -/
def pyFloat : JsonValue → Option Rat
  | JsonValue.bool b => some (if b then 1 else 0)
  | JsonValue.num q => some q
  | JsonValue.str s => pyFloatString s
  | _ => none

/-- Truncation toward zero, the behaviour of Python `int(float)`. -/
def pyTrunc (q : Rat) : Int :=
  if q < 0 then ⌈q⌉ else ⌊q⌋

/-- Model of Python `int(value)` on decoded JSON values: `int(True) = 1`,
`int(False) = 0`, numbers truncate toward zero, integer strings parse;
`None`, lists and dicts raise (returns `none` for ValueError/TypeError,
the exceptions caught by `_extract_int`). -/
def pyInt : JsonValue → Option Int
  | JsonValue.bool b => some (if b then 1 else 0)
  | JsonValue.num q => some (pyTrunc q)
  | JsonValue.str s => pyIntString s
  | _ => none

/-- Topics ignored by the parser (parser.py, `IGNORED_TOPIC_SUFFIXES`). -/
def IGNORED_TOPIC_SUFFIXES : List String :=
  ["/availability", "/bridge/state", "/bridge/info", "/bridge/logging",
   "/bridge/devices", "/bridge/groups", "/bridge/extensions", "/bridge/config"]

/-- Embedding of `PayloadParser.should_ignore_topic` (parser.py lines 60-65):
true iff the topic ends with one of the ignored suffixes. -/
def should_ignore_topic (topic : String) : Bool :=
  IGNORED_TOPIC_SUFFIXES.any (fun sfx => sfx.toList.isSuffixOf topic.toList)

/-- Model of Python `s.split(sep)` for a single-character separator. -/
def splitChar (sep : Char) : List Char → List (List Char)
  | [] => [[]]
  | c :: rest =>
    let r := splitChar sep rest
    if c = sep then [] :: r
    else
      match r with
      | [] => [[c]]
      | g :: gs => (c :: g) :: gs

/-- Embedding of `PayloadParser.extract_device_name` (parser.py lines 67-72):
split the topic on "/", return the last segment if there are at least two,
otherwise the whole topic. -/
def extract_device_name (topic : String) : String :=
  let parts := splitChar '/' topic.toList
  if 2 ≤ parts.length then String.mk (parts.getLastD topic.toList) else topic

/-- Embedding of the `ParsedReading` dataclass (parser.py lines 12-32).
The capture timestamp is an abstract clock value. -/
structure ParsedReading where
  topic : String
  time : Nat
  device_name : String := ""
  temperature : Option Rat := none
  humidity : Option Rat := none
  battery : Option Int := none
  linkquality : Option Int := none
  raw_data : Option Payload := none

/-- Embedding of `ParsedReading.is_valid`: at least one of temperature,
humidity, battery is present. -/
def ParsedReading.is_valid (r : ParsedReading) : Bool :=
  r.temperature.isSome || r.humidity.isSome || r.battery.isSome

/-- Candidate source keys for the temperature field (parser.py lines 105-110). -/
def TEMPERATURE_FIELDS : List String :=
  ["temperature", "device_temperature", "local_temperature",
   "current_heating_setpoint"]

/-- Candidate source keys for the humidity field (parser.py lines 113-116). -/
def HUMIDITY_FIELDS : List String := ["humidity", "soil_moisture"]

/-- Candidate source keys for the battery field (parser.py lines 119-122). -/
def BATTERY_FIELDS : List String := ["battery", "battery_low"]

/-- Candidate source keys for the link quality field (parser.py lines 129-132). -/
def LINKQUALITY_FIELDS : List String := ["linkquality", "link_quality"]

/-- Embedding of `PayloadParser._extract_float` (parser.py lines 164-178):
try each candidate key in order; a missing key, a `None` value, or a value
on which `float(...)` raises ValueError/TypeError is skipped in favour of
the later candidates. -/
def extract_float (payload : Payload) : List String → Option Rat
  | [] => none
  | name :: rest =>
    match payload.lookup name with
    | none => extract_float payload rest
    | some v =>
      if v.isNull then extract_float payload rest
      else
        match pyFloat v with
        | some q => some q
        | none => extract_float payload rest

/-- Embedding of `PayloadParser._extract_int` (parser.py lines 180-194):
same candidate-key scheme with Python `int(...)` coercion. -/
def extract_int (payload : Payload) : List String → Option Int
  | [] => none
  | name :: rest =>
    match payload.lookup name with
    | none => extract_int payload rest
    | some v =>
      if v.isNull then extract_int payload rest
      else
        match pyInt v with
        | some n => some n
        | none => extract_int payload rest

/-- Embedding of `PayloadParser.parse` (parser.py lines 74-162): reject
ignored topics and empty payloads, build the reading with the capture time
`now` and the extracted fields (including the `battery_low` fallback at
lines 124-126), and reject readings with no usable data. -/
def parse (topic : String) (payload : Payload) (now : Nat) :
    Option ParsedReading :=
  if should_ignore_topic topic then none
  else if payload.isEmpty then none
  else
    let battery0 := extract_int payload BATTERY_FIELDS
    let reading : ParsedReading :=
      { topic := topic
        time := now
        device_name := extract_device_name topic
        temperature := extract_float payload TEMPERATURE_FIELDS
        humidity := extract_float payload HUMIDITY_FIELDS
        battery :=
          match battery0 with
          | some b => some b
          | none =>
            match payload.lookup "battery_low" with
            | some v => some (if pyTruthy v then 10 else 100)
            | none => none
        linkquality := extract_int payload LINKQUALITY_FIELDS
        raw_data := some payload }
    if reading.is_valid then some reading else none

/-- Every source key whose presence can make a reading valid: the candidate
lists feeding temperature, humidity and battery (the battery list already
ends in `battery_low`, the key also consulted by the fallback at parser.py
lines 124-126). -/
def SENSOR_SOURCE_KEYS : List String :=
  TEMPERATURE_FIELDS ++ HUMIDITY_FIELDS ++ BATTERY_FIELDS

/-- Row of the `sensor_readings` table, with the columns named in the
`INSERT` statement of `DatabaseWriter.write_readings` (database.py lines
125-136): time, topic, temperature, humidity, battery, linkquality,
raw_data. -/
structure Row where
  time : Nat
  topic : String
  temperature : Option Rat
  humidity : Option Rat
  battery : Option Int
  linkquality : Option Int
  raw_data : Option Payload

/-- The natural key of the `sensor_readings` table: `(time, topic)`, the
conflict target of the upsert. -/
abbrev RowKey := Nat × String

/-- Key of a stored row. -/
def Row.key (x : Row) : RowKey := (x.time, x.topic)

/-- Key of a reading, as bound by the insert parameters. -/
def ParsedReading.key (r : ParsedReading) : RowKey := (r.time, r.topic)

/-- Row produced from a reading by the insert parameter binding
(database.py lines 138-150). -/
def rowOf (r : ParsedReading) : Row :=
  { time := r.time, topic := r.topic, temperature := r.temperature,
    humidity := r.humidity, battery := r.battery,
    linkquality := r.linkquality, raw_data := r.raw_data }

/-- Replacement applied to a conflicting row by `ON CONFLICT (time, topic)
DO UPDATE`: every non-key column is overwritten with the excluded row's
values (database.py lines 130-135), which together with the shared key
makes the row equal to `rowOf r`. -/
def replaceRow (r : ParsedReading) (x : Row) : Row :=
  if x.key = r.key then rowOf r else x

/-- One `INSERT ... ON CONFLICT (time, topic) DO UPDATE` statement: if a row
with the reading's key exists it is updated in place, otherwise the new row
is appended. -/
def upsertOne (store : List Row) (r : ParsedReading) : List Row :=
  if ∃ x ∈ store, x.key = r.key then store.map (replaceRow r)
  else store ++ [rowOf r]

/-- The loop of `DatabaseWriter.write_readings` (database.py lines 138-150):
one upsert per reading, in batch order, inside one transaction. -/
def writeBatch (store : List Row) (readings : List ParsedReading) :
    List Row :=
  readings.foldl upsertOne store

/-- Number of rows in the store carrying a given key. -/
def countKey (store : List Row) (k : RowKey) : Nat :=
  store.countP (fun x => decide (x.key = k))

/-- Key-uniqueness invariant of the table (the unique index behind the
`ON CONFLICT` clause): at most one row per `(time, topic)`. -/
def keysUnique (store : List Row) : Prop := ∀ k, countKey store k ≤ 1

/-- Last reading of a batch carrying a given key (the one whose values a
last-write-wins upsert leaves visible). -/
def lastWith : List ParsedReading → RowKey → Option ParsedReading
  | [], _ => none
  | r :: rest, k =>
    match lastWith rest k with
    | some x => some x
    | none => if r.key = k then some r else none


/-- Store obtained by overwriting every row whose key occurs in the batch
with the values of the batch's last reading for that key (the intended net
effect of a last-write-wins upsert of the whole batch over a store that
already contains all of the batch's keys). -/
def mapLast (store : List Row) (b : List ParsedReading) : List Row :=
  store.map (fun x =>
    match lastWith b x.key with
    | some r => rowOf r
    | none => x)

/-- Mutable state of `DatabaseWriter` (database.py lines 30-36) plus the
durable store the writer commits to.  `last_write_time` is an abstract
clock value. -/
structure WriterState where
  connected : Bool
  write_count : Nat
  error_count : Nat
  last_write_time : Option Nat
  store : List Row

/-- Outcome of the fallible storage operations of one `write_readings`
call: every statement succeeds and the transaction commits (`ok`), the
`i`-th `session.execute` raises `SQLAlchemyError` (`failExec i`, relevant
when `i` is in range), or all inserts succeed and the final
`session.commit()` issued by `get_session` raises (`failCommit`).  Either
exception rolls the transaction back (database.py lines 79-90), so the
store is unchanged on failure. -/
inductive DbOutcome where
  | ok : DbOutcome
  | failExec (i : Nat) : DbOutcome
  | failCommit : DbOutcome

/-- Embedding of `DatabaseWriter.write_readings` (database.py lines
104-171).  `now` models `datetime.utcnow()`; `connectOk` models whether an
inline `connect()` attempt would succeed; `outcome` models the storage
operations' outcome.  An empty batch returns success immediately.  If
disconnected, one reconnect is attempted; on reconnect failure the call
returns failure (without touching the error counter — `connect` only logs
and leaves `_connected` false).  Otherwise the batch is upserted in one
transaction; on `SQLAlchemyError` the error counter is bumped, the writer
marked disconnected, and failure returned — the exception never escapes.
Note the source bumps `write_count` and `last_write_time` inside the
session block, before the commit that `get_session` issues on exit, so a
commit failure still bumps them. -/
def write_readings (st : WriterState) (readings : List ParsedReading)
    (now : Nat) (connectOk : Bool) (outcome : DbOutcome) :
    WriterState × Bool :=
  if readings.isEmpty then (st, true)
  else
    match (if st.connected then some st
           else if connectOk then some { st with connected := true }
           else none) with
    | none => (st, false)
    | some st1 =>
      match outcome with
      | DbOutcome.failExec i =>
        if i < readings.length then
          ({ st1 with error_count := st1.error_count + 1,
                      connected := false }, false)
        else
          ({ st1 with store := writeBatch st1.store readings,
                      write_count := st1.write_count + readings.length,
                      last_write_time := some now }, true)
      | DbOutcome.failCommit =>
        ({ st1 with write_count := st1.write_count + readings.length,
                    last_write_time := some now,
                    error_count := st1.error_count + 1,
                    connected := false }, false)
      | DbOutcome.ok =>
        ({ st1 with store := writeBatch st1.store readings,
                    write_count := st1.write_count + readings.length,
                    last_write_time := some now }, true)

/-- A concrete reading used to instantiate theorems with hypotheses. -/
def sampleReading : ParsedReading :=
  { topic := "zigbee2mqtt/office", time := 0,
    device_name := "office", temperature := some 20 }

/-- State of `BatchWriter` (database.py lines 191-195) relevant to
batching: the pending buffer, plus the finished batches handed to
`DatabaseWriter.write_readings`, in flush order.  The flush clock is
irrelevant to size-triggered flushes and omitted. -/
structure BatchState where
  batch : List ParsedReading
  flushed : List (List ParsedReading)

/-- Embedding of `BatchWriter.add` (database.py lines 197-204) together
with the size-triggered `_flush` (lines 219-236), for a configured batch
size `bs` (`settings.batch_size`): append the reading; if the buffer has
reached `bs` entries, swap the whole buffer out and hand it to the storage
writer. -/
def addReading (bs : Nat) (st : BatchState) (r : ParsedReading) :
    BatchState :=
  let grown := st.batch ++ [r]
  if bs ≤ grown.length then
    { batch := [], flushed := st.flushed ++ [grown] }
  else
    { st with batch := grown }

/-- Sequential run of `add` over a list of readings. -/
def addAll (bs : Nat) (st : BatchState) (rs : List ParsedReading) :
    BatchState :=
  rs.foldl (addReading bs) st

/-- Atomic actions of the `BatchWriter` coroutines, at the granularity of
the code of database.py lines 197-236.  `acquire`/`release` delimit
`async with self._lock`; `append` is `self.batch.append(reading)`;
`swap` is the buffer swap plus flush-clock reset (`_flush` lines 224-226);
`writeStart`/`writeEnd` are the suspension and resumption of
`await loop.run_in_executor(None, self.db_writer.write_readings, readings)`
(lines 229-234), between which the storage write runs in the thread pool
while the event loop is free to run other tasks. -/
inductive Act where
  | acquire : Act
  | append : Act
  | swap : Act
  | writeStart : Act
  | writeEnd : Act
  | release : Act
deriving DecidableEq, BEq

/-- Program of task A: an `add` whose append fills the buffer to the batch
size, so `_flush` runs before the lock is released (database.py lines
199-204: `_flush` is awaited inside `async with self._lock`). -/
def addFlushProg : List Act :=
  [Act.acquire, Act.append, Act.swap, Act.writeStart, Act.writeEnd,
   Act.release]

/-- Program of task B: a concurrent `add` that does not reach the size
threshold. -/
def addProg : List Act := [Act.acquire, Act.append, Act.release]

/-- Joint state of the two tasks and the `asyncio.Lock`: the remaining
program of each task, the current lock owner (`some true` = task A,
`some false` = task B), and the interleaved trace of executed actions. -/
structure Sys where
  progA : List Act
  progB : List Act
  lockOwner : Option Bool
  trace : List (Bool × Act)

/-- One scheduling step: the chosen task (`true` = A) executes its next
action if able.  `acquire` succeeds only when the lock is free and
`release` only for the owner — an attempt while blocked is a no-op (the
task stays suspended waiting on the lock, as `async with` does). -/
def step (s : Sys) (who : Bool) : Sys :=
  match (if who then s.progA else s.progB) with
  | [] => s
  | a :: rest =>
    let adv : Option Bool → Sys := fun owner =>
      if who then
        { s with progA := rest, lockOwner := owner,
                 trace := s.trace ++ [(who, a)] }
      else
        { s with progB := rest, lockOwner := owner,
                 trace := s.trace ++ [(who, a)] }
    match a with
    | Act.acquire => if s.lockOwner = none then adv (some who) else s
    | Act.release => if s.lockOwner = some who then adv none else s
    | _ => adv s.lockOwner

/-- Initial state: task A about to run an overflowing `add`, task B about
to run a plain `add`, lock free, empty trace. -/
def sysInit : Sys :=
  { progA := addFlushProg, progB := addProg, lockOwner := none,
    trace := [] }

/-- Run of an arbitrary finite schedule (each entry names the task given
the next chance to run). -/
def run (sched : List Bool) : Sys := sched.foldl step sysInit

/-- Write-in-flight flag after one trace event: set while task A is
between `writeStart` and `writeEnd`, i.e. while the flushed batch is being
written to storage. -/
def stepFlag (e : Bool × Act) (f : Bool) : Bool :=
  if e = (true, Act.writeStart) then true
  else if e = (true, Act.writeEnd) then false
  else f

/-- Event that witnesses the claim: task B acquiring the lock while task
A's storage write is in flight. -/
def badOne (e : Bool × Act) (f : Bool) : Bool :=
  e.1 == false && e.2 == Act.acquire && f

/-- Scan of a trace: first component is true iff task B acquired the lock
at a moment when task A's storage write was in flight; second component is
the write-in-flight flag at the end of the trace. -/
def scanAcq : List (Bool × Act) → Bool → Bool × Bool
  | [], f => (false, f)
  | e :: rest, f =>
    let r := scanAcq rest (stepFlag e f)
    (badOne e f || r.1, r.2)

/-- Mutable state of `MQTTClient` (mqtt_client.py lines 27-34) relevant to
message handling, together with the list of callback invocations made. -/
structure MqttState where
  connected : Bool
  message_count : Nat
  error_count : Nat
  last_message_time : Option Nat
  has_callback : Bool
  callback_calls : List (String × Payload)

/-- Outcome of `json.loads(message.payload.decode("utf-8"))` for one raw
message: the payload bytes are not valid UTF-8 (`decode` raises
`UnicodeDecodeError`), the text is not valid JSON (`json.loads` raises
`json.JSONDecodeError`), or a JSON value is produced. -/
inductive DecodeResult where
  | notUtf8 : DecodeResult
  | notJson : DecodeResult
  | json (v : JsonValue) : DecodeResult

/-- True iff the decoded value is a JSON object (Python dict), the
`isinstance(payload, dict)` check. -/
def DecodeResult.isObj : DecodeResult → Bool
  | DecodeResult.json (JsonValue.obj _) => true
  | _ => false

/-- Fields of a decoded object, for the callback argument. -/
def objFields : JsonValue → Payload
  | JsonValue.obj fields => fields
  | _ => []

/-- Embedding of `MQTTClient._on_message` (mqtt_client.py lines 159-195).
A `json.JSONDecodeError` is caught by the inner handler, which only logs
at debug level and returns — no counter changes.  A `UnicodeDecodeError`
from `.decode("utf-8")` is not `json.JSONDecodeError`, so it reaches the
outer `except Exception`, which increments `_error_count`.  A decoded
value bumps `_message_count` and `_last_message_time`; the callback is
invoked only when a callback is registered and the value is a dict. -/
def on_message (st : MqttState) (topic : String) (d : DecodeResult)
    (now : Nat) : MqttState :=
  match d with
  | DecodeResult.notUtf8 => { st with error_count := st.error_count + 1 }
  | DecodeResult.notJson => st
  | DecodeResult.json v =>
    let st1 := { st with message_count := st.message_count + 1,
                         last_message_time := some now }
    match v with
    | JsonValue.obj fields =>
      if st1.has_callback then
        { st1 with callback_calls := st1.callback_calls ++ [(topic, fields)] }
      else st1
    | _ => st1

/-- Second concrete reading (distinct topic) for batching witnesses. -/
def sampleReading2 : ParsedReading :=
  { topic := "zigbee2mqtt/bedroom", time := 1,
    device_name := "bedroom", humidity := some 55 }

/-- Third concrete reading (distinct topic) for batching witnesses. -/
def sampleReading3 : ParsedReading :=
  { topic := "zigbee2mqtt/fridge", time := 2,
    device_name := "fridge", battery := some 90 }

/-- Concrete MQTT client state with a registered callback and zeroed
counters, for witnesses and counterexamples. -/
def mqttInit : MqttState :=
  { connected := true, message_count := 0, error_count := 0,
    last_message_time := none, has_callback := true, callback_calls := [] }

/-- All suffixes of task A's program (the states its program counter can
reach). -/
def progATails : List (List Act) :=
  [[Act.acquire, Act.append, Act.swap, Act.writeStart, Act.writeEnd,
    Act.release],
   [Act.append, Act.swap, Act.writeStart, Act.writeEnd, Act.release],
   [Act.swap, Act.writeStart, Act.writeEnd, Act.release],
   [Act.writeStart, Act.writeEnd, Act.release],
   [Act.writeEnd, Act.release],
   [Act.release],
   []]

/-- All suffixes of task B's program. -/
def progBTails : List (List Act) :=
  [[Act.acquire, Act.append, Act.release],
   [Act.append, Act.release],
   [Act.release],
   []]

/-- True while task A's storage write is in flight: A has executed
`writeStart` but not yet `writeEnd`. -/
def writeInFlight (s : Sys) : Bool :=
  if s.progA = [Act.writeEnd, Act.release] then true else false

/-- Inductive invariant of the two-task system: each program counter is a
suffix of its program; a task strictly inside its `acquire`..`release`
region owns the lock; and the trace so far contains no acquisition by task
B during task A's write, with the scan's in-flight flag agreeing with the
state. -/
def SysInv (s : Sys) : Prop :=
  s.progA ∈ progATails ∧
  s.progB ∈ progBTails ∧
  (s.progA ≠ addFlushProg → s.progA ≠ [] → s.lockOwner = some true) ∧
  (s.progB ≠ addProg → s.progB ≠ [] → s.lockOwner = some false) ∧
  scanAcq s.trace false = (false, writeInFlight s)

theorem rowOf_key (r : ParsedReading) : (rowOf r).key = r.key := rfl

theorem replaceRow_key (r : ParsedReading) (x : Row) :
    (replaceRow r x).key = x.key := by
  by_cases h : x.key = r.key <;>
    simp [replaceRow, h, rowOf_key]

theorem countKey_nil (k : RowKey) : countKey [] k = 0 := rfl

theorem countKey_cons (x : Row) (s : List Row) (k : RowKey) :
    countKey (x :: s) k = countKey s k + (if x.key = k then 1 else 0) := by
  simp [countKey, List.countP_cons]

theorem countKey_map_replaceRow (store : List Row) (r : ParsedReading)
    (k : RowKey) :
    countKey (store.map (replaceRow r)) k = countKey store k := by
  induction store with
  | nil => rfl
  | cons x s ih =>
    simp only [List.map_cons, countKey_cons, replaceRow_key, ih]

theorem countKey_append_rowOf (store : List Row) (r : ParsedReading)
    (k : RowKey) :
    countKey (store ++ [rowOf r]) k =
      countKey store k + (if r.key = k then 1 else 0) := by
  simp [countKey, List.countP_append, List.countP_cons, rowOf_key]

theorem countKey_pos_iff (store : List Row) (k : RowKey) :
    0 < countKey store k ↔ ∃ x ∈ store, x.key = k := by
  simp [countKey, List.countP_pos_iff]

example :
    (parse "zigbee2mqtt/sensor"
      [("battery_low", JsonValue.bool true), ("temperature", JsonValue.num 20)]
      0).map (fun r => r.battery) = some (some 1) := by decide

example :
    (parse "zigbee2mqtt/sensor"
      [("battery_low", JsonValue.bool false), ("temperature", JsonValue.num 20)]
      0).map (fun r => r.battery) = some (some 0) := by decide

example :
    (parse "zigbee2mqtt/router" [("device_temperature", JsonValue.num 35)]
      0).map (fun r => r.temperature) = some (some 35) := by decide

example : extract_device_name "zigbee2mqtt/floor1/bedroom" = "bedroom" := by
  decide

example : extract_device_name "sensor1" = "sensor1" := by decide

example : should_ignore_topic "zigbee2mqtt/bridge/state" = true := by decide

example :
    (parse "zigbee2mqtt/button"
      [("action", JsonValue.str "toggle"), ("click", JsonValue.str "single")]
      0).isNone = true := by decide

/-- Helper: `_extract_float` yields nothing when none of the candidate keys
is present in the payload. -/
theorem extract_float_eq_none_of_lookup_none (payload : Payload) :
    ∀ names : List String, (∀ name ∈ names, payload.lookup name = none) →
      extract_float payload names = none := by
  intro names
  induction names with
  | nil => intro _; rfl
  | cons name rest ih =>
    intro h
    have h1 : payload.lookup name = none := h name (by simp)
    have h2 := ih (fun n hn => h n (by simp [hn]))
    simp [extract_float, h1, h2]

/-- Helper: `_extract_int` yields nothing when none of the candidate keys
is present in the payload. -/
theorem extract_int_eq_none_of_lookup_none (payload : Payload) :
    ∀ names : List String, (∀ name ∈ names, payload.lookup name = none) →
      extract_int payload names = none := by
  intro names
  induction names with
  | nil => intro _; rfl
  | cons name rest ih =>
    intro h
    have h1 : payload.lookup name = none := h name (by simp)
    have h2 := ih (fun n hn => h n (by simp [hn]))
    simp [extract_int, h1, h2]

/-- C1: evaluation of the code at the claim's own inputs.  `parse` maps
`{"battery_low": true, "temperature": 20}` to battery 1, not 10, and
`{"battery_low": false, "temperature": 20}` to battery 0, not 100: Python
`int(True) = 1` and `int(False) = 0` make `_extract_int` succeed on the
boolean, so the `battery_low` fallback at parser.py lines 124-126 is dead
for boolean values, contradicting the spec and the repository's own tests
(test_parser.py lines 135-143). -/
theorem battery_low_boolean_yields_one_and_zero :
    (parse "zigbee2mqtt/sensor"
      [("battery_low", JsonValue.bool true), ("temperature", JsonValue.num 20)]
      0).map (fun r => r.battery) = some (some 1) ∧
    (parse "zigbee2mqtt/sensor"
      [("battery_low", JsonValue.bool false), ("temperature", JsonValue.num 20)]
      0).map (fun r => r.battery) = some (some 0) := by decide

/-- C3 counterexample: the payload `{"device_temperature": 35}` contains none
of the four keys named by the claim (temperature, humidity, battery,
battery_low), the topic is not ignored, and yet `parse` returns a reading. -/
theorem parse_some_without_claimed_keys :
    should_ignore_topic "zigbee2mqtt/router" = false ∧
    (["temperature", "humidity", "battery", "battery_low"].all
      (fun k =>
        (List.lookup k
          [("device_temperature", JsonValue.num 35)]).isNone)) = true ∧
    (parse "zigbee2mqtt/router" [("device_temperature", JsonValue.num 35)]
      0).isSome = true := by decide

/-- C3 (amended): for every topic and every payload containing none of the
eight source keys consulted for temperature, humidity and battery
(temperature, device_temperature, local_temperature,
current_heating_setpoint, humidity, soil_moisture, battery, battery_low),
`parse` returns nothing. -/
theorem parse_none_without_sensor_source_keys
    (topic : String) (payload : Payload) (now : Nat)
    (h : ∀ k ∈ SENSOR_SOURCE_KEYS, payload.lookup k = none) :
    parse topic payload now = none := by
  have htemp : extract_float payload TEMPERATURE_FIELDS = none :=
    extract_float_eq_none_of_lookup_none payload TEMPERATURE_FIELDS
      (fun n hn => h n (by
        simp [SENSOR_SOURCE_KEYS, TEMPERATURE_FIELDS, HUMIDITY_FIELDS,
          BATTERY_FIELDS] at hn ⊢
        tauto))
  have hhum : extract_float payload HUMIDITY_FIELDS = none :=
    extract_float_eq_none_of_lookup_none payload HUMIDITY_FIELDS
      (fun n hn => h n (by
        simp [SENSOR_SOURCE_KEYS, TEMPERATURE_FIELDS, HUMIDITY_FIELDS,
          BATTERY_FIELDS] at hn ⊢
        tauto))
  have hbat : extract_int payload BATTERY_FIELDS = none :=
    extract_int_eq_none_of_lookup_none payload BATTERY_FIELDS
      (fun n hn => h n (by
        simp [SENSOR_SOURCE_KEYS, TEMPERATURE_FIELDS, HUMIDITY_FIELDS,
          BATTERY_FIELDS] at hn ⊢
        tauto))
  have hbl : payload.lookup "battery_low" = none :=
    h "battery_low" (by
      simp [SENSOR_SOURCE_KEYS, TEMPERATURE_FIELDS, HUMIDITY_FIELDS,
        BATTERY_FIELDS])
  by_cases hig : should_ignore_topic topic
  · simp [parse, hig]
  · by_cases hemp : payload.isEmpty
    · simp [parse, hig, hemp]
    · simp [parse, hig, hemp, ParsedReading.is_valid, htemp, hhum, hbat, hbl]

/-- C3 witness: a concrete non-sensor payload (an action button event) on a
non-ignored topic is rejected. -/
theorem parse_none_without_sensor_source_keys_witness :
    parse "zigbee2mqtt/button" [("action", JsonValue.str "toggle")] 0 =
      none :=
  parse_none_without_sensor_source_keys "zigbee2mqtt/button"
    [("action", JsonValue.str "toggle")] 0
    (by
      intro k hk
      simp [SENSOR_SOURCE_KEYS, TEMPERATURE_FIELDS, HUMIDITY_FIELDS,
        BATTERY_FIELDS] at hk
      rcases hk with rfl | rfl | rfl | rfl | rfl | rfl | rfl | rfl <;> rfl)

/-- C9: temperature resolution.  (1) any reading produced by `parse` carries
exactly `extract_float` of the prioritized candidate list (temperature,
device_temperature, local_temperature, current_heating_setpoint); (2) the
first present, non-null, coercible candidate wins; (3) a missing, null, or
non-coercible candidate is skipped in favour of the later candidates; and
(4) in particular `{"device_temperature": 35}` resolves to 35. -/
theorem temperature_resolution :
    (∀ (payload : Payload) (topic : String) (now : Nat) (r : ParsedReading),
      parse topic payload now = some r →
      r.temperature = extract_float payload TEMPERATURE_FIELDS) ∧
    (∀ (payload : Payload) (name : String) (rest : List String)
      (v : JsonValue) (q : Rat),
      payload.lookup name = some v → v.isNull = false → pyFloat v = some q →
      extract_float payload (name :: rest) = some q) ∧
    (∀ (payload : Payload) (name : String) (rest : List String),
      (payload.lookup name = none ∨
        (∃ v, payload.lookup name = some v ∧ v.isNull = true) ∨
        (∃ v, payload.lookup name = some v ∧ pyFloat v = none)) →
      extract_float payload (name :: rest) = extract_float payload rest) ∧
    (parse "zigbee2mqtt/router" [("device_temperature", JsonValue.num 35)]
      0).map (fun r => r.temperature) = some (some 35) := by
  refine ⟨?_, ?_, ?_, by decide⟩
  · intro payload topic now r h
    by_cases hig : should_ignore_topic topic
    · simp [parse, hig] at h
    · by_cases hemp : payload.isEmpty
      · simp [parse, hig, hemp] at h
      · simp only [parse, hig, hemp, Bool.false_eq_true, if_false,
          if_true] at h
        split at h
        · cases h
          rfl
        · cases h
  · intro payload name rest v q h1 h2 h3
    simp [extract_float, h1, h2, h3]
  · intro payload name rest h
    rcases h with h1 | ⟨v, h1, h2⟩ | ⟨v, h1, h2⟩
    · simp [extract_float, h1]
    · simp [extract_float, h1, h2]
    · by_cases h3 : v.isNull
      · simp [extract_float, h1, h3]
      · simp [extract_float, h1, h3, h2]

/-- C9 witness: the hit and skip conjuncts at concrete inputs — a present
numeric `device_temperature` wins, and a non-numeric string `temperature`
is skipped in favour of the rest of the candidate list. -/
theorem temperature_resolution_witness :
    extract_float [("device_temperature", JsonValue.num 35)]
      ["device_temperature", "local_temperature"] = some 35 ∧
    extract_float [("temperature", JsonValue.str "broken")]
      ["temperature", "device_temperature"] =
      extract_float [("temperature", JsonValue.str "broken")]
        ["device_temperature"] :=
  ⟨temperature_resolution.2.1 [("device_temperature", JsonValue.num 35)]
      "device_temperature" ["local_temperature"] (JsonValue.num 35) 35
      rfl rfl rfl,
   temperature_resolution.2.2.1 [("temperature", JsonValue.str "broken")]
      "temperature" ["device_temperature"]
      (Or.inr (Or.inr ⟨JsonValue.str "broken", rfl, rfl⟩))⟩

/-- Helper: an upsert leaves the row count of every other key unchanged. -/
theorem upsertOne_countKey_other (store : List Row) (r : ParsedReading)
    (k : RowKey) (h : k ≠ r.key) :
    countKey (upsertOne store r) k = countKey store k := by
  unfold upsertOne
  split
  · exact countKey_map_replaceRow store r k
  · rw [countKey_append_rowOf, if_neg (fun he => h he.symm)]
    omega

/-- Helper: on a key-unique store, an upsert leaves exactly one row with
the upserted key. -/
theorem upsertOne_countKey_self (store : List Row) (r : ParsedReading)
    (h : keysUnique store) :
    countKey (upsertOne store r) r.key = 1 := by
  unfold upsertOne
  split
  case isTrue hp =>
    rw [countKey_map_replaceRow]
    have h1 : 0 < countKey store r.key := (countKey_pos_iff store r.key).2 hp
    have h2 := h r.key
    omega
  case isFalse hp =>
    rw [countKey_append_rowOf]
    have h1 : countKey store r.key = 0 := by
      by_contra hne
      exact hp ((countKey_pos_iff store r.key).1 (Nat.pos_of_ne_zero hne))
    simp [h1]

/-- Helper: an upsert preserves key uniqueness. -/
theorem upsertOne_keysUnique (store : List Row) (r : ParsedReading)
    (h : keysUnique store) : keysUnique (upsertOne store r) := by
  intro k
  by_cases hk : k = r.key
  · subst hk
    rw [upsertOne_countKey_self store r h]
  · rw [upsertOne_countKey_other store r k hk]
    exact h k

/-- Helper: a batch write preserves key uniqueness. -/
theorem writeBatch_keysUnique (b : List ParsedReading) :
    ∀ store : List Row, keysUnique store →
      keysUnique (writeBatch store b) := by
  induction b with
  | nil => intro store h; exact h
  | cons r rest ih =>
    intro store h
    exact ih (upsertOne store r) (upsertOne_keysUnique store r h)

/-- Helper: a key already carrying exactly one row keeps exactly one row
through any batch write over a key-unique store. -/
theorem writeBatch_countKey_preserved (b : List ParsedReading) :
    ∀ store : List Row, keysUnique store → ∀ k, countKey store k = 1 →
      countKey (writeBatch store b) k = 1 := by
  induction b with
  | nil => intro store _ k h1; exact h1
  | cons r rest ih =>
    intro store hu k h1
    apply ih (upsertOne store r) (upsertOne_keysUnique store r hu)
    by_cases hk : k = r.key
    · subst hk
      exact upsertOne_countKey_self store r hu
    · rw [upsertOne_countKey_other store r k hk]
      exact h1

/-- Helper: after writing a batch over a key-unique store, every key of the
batch carries exactly one row. -/
theorem writeBatch_countKey_one (b : List ParsedReading) :
    ∀ store : List Row, keysUnique store → ∀ r ∈ b,
      countKey (writeBatch store b) r.key = 1 := by
  induction b with
  | nil =>
    intro store _ r hr
    exact absurd hr (List.not_mem_nil r)
  | cons r0 rest ih =>
    intro store hu r hr
    rcases List.mem_cons.1 hr with rfl | hr2
    · exact writeBatch_countKey_preserved rest (upsertOne store r)
        (upsertOne_keysUnique store r hu) r.key
        (upsertOne_countKey_self store r hu)
    · exact ih (upsertOne store r0) (upsertOne_keysUnique store r0 hu) r hr2

/-- Helper: a row of the upserted key in the upsert's result carries the
upserted reading's values. -/
theorem mem_upsertOne_key_eq (store : List Row) (r : ParsedReading) :
    ∀ x ∈ upsertOne store r, x.key = r.key → x = rowOf r := by
  intro x hx hk
  unfold upsertOne at hx
  split at hx
  case isTrue hp =>
    rcases List.mem_map.1 hx with ⟨y, hy, rfl⟩
    by_cases hy2 : y.key = r.key
    · rw [replaceRow, if_pos hy2]
    · rw [replaceRow_key] at hk
      exact absurd hk hy2
  case isFalse hp =>
    rcases List.mem_append.1 hx with hx1 | hx1
    · exact absurd ⟨x, hx1, hk⟩ hp
    · simpa using hx1

/-- Helper: a row of a different key in the upsert's result was already in
the store. -/
theorem mem_upsertOne_key_ne (store : List Row) (r : ParsedReading) :
    ∀ x ∈ upsertOne store r, x.key ≠ r.key → x ∈ store := by
  intro x hx hk
  unfold upsertOne at hx
  split at hx
  · rcases List.mem_map.1 hx with ⟨y, hy, rfl⟩
    by_cases hy2 : y.key = r.key
    · exfalso
      apply hk
      rw [replaceRow_key]
      exact hy2
    · rwa [replaceRow, if_neg hy2]
  · rcases List.mem_append.1 hx with hx1 | hx1
    · exact hx1
    · exfalso
      apply hk
      have : x = rowOf r := by simpa using hx1
      rw [this, rowOf_key]

/-- Helper: after an upsert the upserted key is present. -/
theorem upsertOne_keyMem_self (store : List Row) (r : ParsedReading) :
    ∃ x ∈ upsertOne store r, x.key = r.key := by
  unfold upsertOne
  split
  case isTrue hp =>
    rcases hp with ⟨y, hy, hk⟩
    exact ⟨replaceRow r y, List.mem_map_of_mem _ hy,
      by rw [replaceRow_key, hk]⟩
  case isFalse hp =>
    exact ⟨rowOf r, by simp, rowOf_key r⟩

/-- Helper: an upsert preserves presence of every key. -/
theorem upsertOne_keyMem_mono (store : List Row) (r : ParsedReading)
    (k : RowKey) (h : ∃ x ∈ store, x.key = k) :
    ∃ x ∈ upsertOne store r, x.key = k := by
  rcases h with ⟨y, hy, hk⟩
  unfold upsertOne
  split
  · exact ⟨replaceRow r y, List.mem_map_of_mem _ hy,
      by rw [replaceRow_key, hk]⟩
  · exact ⟨y, List.mem_append_left _ hy, hk⟩

/-- Helper: a batch write preserves presence of every key. -/
theorem writeBatch_keyMem_mono (b : List ParsedReading) :
    ∀ (store : List Row) (k : RowKey), (∃ x ∈ store, x.key = k) →
      ∃ x ∈ writeBatch store b, x.key = k := by
  induction b with
  | nil => intro store k h; exact h
  | cons r rest ih =>
    intro store k h
    exact ih (upsertOne store r) k (upsertOne_keyMem_mono store r k h)

/-- Helper: after a batch write, every key of the batch is present. -/
theorem writeBatch_keyMem (b : List ParsedReading) :
    ∀ store : List Row, ∀ r ∈ b,
      ∃ x ∈ writeBatch store b, x.key = r.key := by
  induction b with
  | nil =>
    intro store r hr
    exact absurd hr (List.not_mem_nil r)
  | cons r0 rest ih =>
    intro store r hr
    rcases List.mem_cons.1 hr with rfl | hr2
    · exact writeBatch_keyMem_mono rest (upsertOne store r) r.key
        (upsertOne_keyMem_self store r)
    · exact ih (upsertOne store r0) r hr2

/-- Helper: a key with no occurrence in the batch has no last occurrence. -/
theorem lastWith_none_not_mem (b : List ParsedReading) (k : RowKey)
    (h : lastWith b k = none) : ∀ r ∈ b, r.key ≠ k := by
  induction b with
  | nil =>
    intro r hr
    exact absurd hr (List.not_mem_nil r)
  | cons r0 rest ih =>
    intro r hr
    unfold lastWith at h
    cases hrest : lastWith rest k with
    | some x =>
      rw [hrest] at h
      cases h
    | none =>
      rw [hrest] at h
      rcases List.mem_cons.1 hr with rfl | hr2
      · intro hk
        rw [if_pos hk] at h
        cases h
      · exact ih hrest r hr2

/-- Helper: rows whose key does not occur in the batch are exactly the
store's rows with that key. -/
theorem writeBatch_untouched (b : List ParsedReading) :
    ∀ (store : List Row) (k : RowKey), (∀ r ∈ b, r.key ≠ k) →
      ∀ x ∈ writeBatch store b, x.key = k → x ∈ store := by
  induction b with
  | nil => intro store k _ x hx _; exact hx
  | cons r0 rest ih =>
    intro store k h x hx hk
    have hx2 : x ∈ upsertOne store r0 :=
      ih (upsertOne store r0) k (fun r hr => h r (List.mem_cons_of_mem _ hr))
        x hx hk
    exact mem_upsertOne_key_ne store r0 x hx2
      (fun he => h r0 (List.mem_cons_self _ _) (by rw [← he, hk]))

/-- Helper: after a batch write, every row whose key occurs in the batch
carries the values of the batch's last reading with that key
(last-write-wins within and across batches). -/
theorem writeBatch_last_value (b : List ParsedReading) :
    ∀ (store : List Row) (k : RowKey) (r2 : ParsedReading),
      lastWith b k = some r2 →
      ∀ x ∈ writeBatch store b, x.key = k → x = rowOf r2 := by
  induction b with
  | nil =>
    intro store k r2 h
    exact Option.noConfusion h
  | cons r0 rest ih =>
    intro store k r2 h x hx hk
    unfold lastWith at h
    cases hrest : lastWith rest k with
    | some y =>
      rw [hrest] at h
      injection h with h2
      subst h2
      exact ih (upsertOne store r0) k y hrest x hx hk
    | none =>
      rw [hrest] at h
      by_cases hk0 : r0.key = k
      · rw [if_pos hk0] at h
        injection h with h2
        subst h2
        have hmem : x ∈ upsertOne store r0 :=
          writeBatch_untouched rest (upsertOne store r0) k
            (lastWith_none_not_mem rest k hrest) x hx hk
        exact mem_upsertOne_key_eq store r0 x hmem (by rw [hk, ← hk0])
      · rw [if_neg hk0] at h
        cases h

/-- Helper: mapping pointwise-equal functions over a list gives equal
lists. -/
theorem list_map_congr {α β : Type _} (l : List α) (f g : α → β)
    (h : ∀ a ∈ l, f a = g a) : l.map f = l.map g := by
  induction l with
  | nil => rfl
  | cons a l ih =>
    simp only [List.map_cons]
    rw [h a (List.mem_cons_self a l),
      ih (fun b hb => h b (List.mem_cons_of_mem a hb))]

/-- Helper: over a store already containing every key of the batch, a batch
write equals the pointwise last-write-wins overwrite `mapLast`. -/
theorem writeBatch_eq_mapLast (b : List ParsedReading) :
    ∀ store : List Row, (∀ r ∈ b, ∃ x ∈ store, x.key = r.key) →
      writeBatch store b = mapLast store b := by
  induction b with
  | nil =>
    intro store _
    unfold mapLast
    simp [lastWith, writeBatch]
  | cons r0 rest ih =>
    intro store h
    have hp : ∃ x ∈ store, x.key = r0.key := h r0 (List.mem_cons_self _ _)
    have hup : upsertOne store r0 = store.map (replaceRow r0) := by
      unfold upsertOne
      rw [if_pos hp]
    have hrest : ∀ r ∈ rest,
        ∃ x ∈ store.map (replaceRow r0), x.key = r.key := by
      intro r hr
      rcases h r (List.mem_cons_of_mem _ hr) with ⟨y, hy, hk⟩
      exact ⟨replaceRow r0 y, List.mem_map_of_mem _ hy,
        by rw [replaceRow_key, hk]⟩
    calc writeBatch store (r0 :: rest)
        = writeBatch (store.map (replaceRow r0)) rest := by
          show writeBatch (upsertOne store r0) rest = _
          rw [hup]
      _ = mapLast (store.map (replaceRow r0)) rest := ih _ hrest
      _ = mapLast store (r0 :: rest) := by
          unfold mapLast
          rw [List.map_map]
          apply list_map_congr
          intro x hx
          simp only [Function.comp_apply, replaceRow_key]
          cases hlw : lastWith rest x.key with
          | some r2 =>
            have hcons : lastWith (r0 :: rest) x.key = some r2 := by
              unfold lastWith
              rw [hlw]
            rw [hcons]
          | none =>
            have hcons : lastWith (r0 :: rest) x.key =
                if r0.key = x.key then some r0 else none := by
              unfold lastWith
              rw [hlw]
            rw [hcons]
            by_cases hkx : r0.key = x.key
            · rw [if_pos hkx, replaceRow, if_pos hkx.symm]
            · rw [if_neg hkx, replaceRow, if_neg (fun he => hkx he.symm)]

/-- Helper: the store produced by a batch write is a fixed point of the
last-write-wins overwrite by the same batch. -/
theorem mapLast_writeBatch_self (b : List ParsedReading)
    (store : List Row) :
    mapLast (writeBatch store b) b = writeBatch store b := by
  unfold mapLast
  have h : ∀ x ∈ writeBatch store b,
      (match lastWith b x.key with
       | some r => rowOf r
       | none => x) = id x := by
    intro x hx
    cases hlw : lastWith b x.key with
    | some r2 =>
      have hv := writeBatch_last_value b store x.key r2 hlw x hx rfl
      simp [hv]
    | none => rfl
  rw [list_map_congr _ _ id h, List.map_id]

/-- Helper: rewriting the same batch a second time is a no-op on the
store. -/
theorem writeBatch_idem (store : List Row) (b : List ParsedReading) :
    writeBatch (writeBatch store b) b = writeBatch store b := by
  rw [writeBatch_eq_mapLast b (writeBatch store b) (writeBatch_keyMem b store)]
  exact mapLast_writeBatch_self b store

/-- Helper: a successful `write_readings` call on a connected writer
commits exactly the batch upsert to the store, stays connected, and
returns success. -/
theorem write_readings_ok_store (st : WriterState) (b : List ParsedReading)
    (now : Nat) (c : Bool) (h : st.connected = true) :
    (write_readings st b now c DbOutcome.ok).1.store =
        writeBatch st.store b ∧
    (write_readings st b now c DbOutcome.ok).1.connected = true ∧
    (write_readings st b now c DbOutcome.ok).2 = true := by
  by_cases hb : b.isEmpty
  · have hb2 : b = [] := by
      cases b with
      | nil => rfl
      | cons x xs => simp at hb
    subst hb2
    simp [write_readings, writeBatch, h]
  · simp [write_readings, hb, h]

/-- C2: writing the same batch twice through the storage writer is
idempotent and keyed on `(time, topic)`.  Over a key-unique store, (1) the
second write leaves the store exactly as the first write left it, (2) key
uniqueness is preserved (no duplicated rows), (3) each key of the batch
carries exactly one row after the write, and (4) the visible values at
each written key are those of the batch's last reading with that key
(last-write-wins). -/
theorem write_readings_idempotent_upsert
    (st : WriterState) (b : List ParsedReading) (now1 now2 : Nat)
    (c1 c2 : Bool) (hconn : st.connected = true)
    (huniq : keysUnique st.store) :
    ((write_readings (write_readings st b now1 c1 DbOutcome.ok).1 b now2 c2
        DbOutcome.ok).1.store =
      (write_readings st b now1 c1 DbOutcome.ok).1.store) ∧
    keysUnique (write_readings st b now1 c1 DbOutcome.ok).1.store ∧
    (∀ r ∈ b,
      countKey (write_readings st b now1 c1 DbOutcome.ok).1.store r.key
        = 1) ∧
    (∀ (k : RowKey) (r2 : ParsedReading), lastWith b k = some r2 →
      ∀ x ∈ (write_readings st b now1 c1 DbOutcome.ok).1.store,
        x.key = k → x = rowOf r2) := by
  obtain ⟨hs1, hc1, -⟩ := write_readings_ok_store st b now1 c1 hconn
  obtain ⟨hs2, -, -⟩ :=
    write_readings_ok_store (write_readings st b now1 c1 DbOutcome.ok).1 b
      now2 c2 hc1
  refine ⟨?_, ?_, ?_, ?_⟩
  · rw [hs2, hs1, writeBatch_idem]
  · rw [hs1]
    exact writeBatch_keysUnique b st.store huniq
  · intro r hr
    rw [hs1]
    exact writeBatch_countKey_one b st.store huniq r hr
  · intro k r2 hlw x hx hk
    rw [hs1] at hx
    exact writeBatch_last_value b st.store k r2 hlw x hx hk

/-- C2 witness: one concrete reading written over an empty store leaves
exactly one row with its key. -/
theorem write_readings_idempotent_upsert_witness :
    countKey
      (write_readings
        { connected := true, write_count := 0, error_count := 0,
          last_write_time := none, store := [] }
        [sampleReading] 1 true DbOutcome.ok).1.store
      sampleReading.key = 1 :=
  (write_readings_idempotent_upsert
    { connected := true, write_count := 0, error_count := 0,
      last_write_time := none, store := [] }
    [sampleReading] 1 2 true true rfl
    (fun _ => by simp [countKey])).2.2.1 sampleReading
    (List.mem_cons_self _ _)

/-- C10: a call with an empty batch is a complete no-op returning success:
the state — connected flag, write count, error count, last-write
timestamp, and store — is returned unchanged, with no reconnect attempt
and no storage operation, whatever the connection state and storage
outcome would have been. -/
theorem write_readings_empty_noop (st : WriterState) (now : Nat)
    (connectOk : Bool) (outcome : DbOutcome) :
    write_readings st [] now connectOk outcome = (st, true) := rfl

/-- C6: whenever the storage write itself fails — any insert raising
`SQLAlchemyError`, or the final commit raising — `write_readings` bumps
the error counter by exactly one, marks the writer disconnected, returns
failure, and (being a total function returning a Boolean, the exception
being caught at database.py lines 163-171) never propagates an exception;
the store is left unchanged by the rollback. -/
theorem write_readings_failure_semantics (st : WriterState)
    (readings : List ParsedReading) (now : Nat) (connectOk : Bool)
    (outcome : DbOutcome) (hne : readings ≠ [])
    (hconn : st.connected = true ∨ connectOk = true)
    (hfail : (∃ i, outcome = DbOutcome.failExec i ∧ i < readings.length) ∨
      outcome = DbOutcome.failCommit) :
    (write_readings st readings now connectOk outcome).2 = false ∧
    (write_readings st readings now connectOk outcome).1.error_count =
      st.error_count + 1 ∧
    (write_readings st readings now connectOk outcome).1.connected =
      false ∧
    (write_readings st readings now connectOk outcome).1.store =
      st.store := by
  have hb : readings.isEmpty = false := by
    cases readings with
    | nil => exact absurd rfl hne
    | cons x xs => rfl
  rcases hfail with ⟨i, rfl, hi⟩ | rfl <;>
    rcases hconn with hc | hc <;>
      by_cases hcon2 : st.connected = true <;>
        simp_all [write_readings]

/-- C6 witness: a commit failure on a connected writer with a singleton
batch returns failure, bumps the error counter to one, and disconnects. -/
theorem write_readings_failure_semantics_witness :
    (write_readings
      { connected := true, write_count := 0, error_count := 0,
        last_write_time := none, store := [] }
      [sampleReading] 3 true DbOutcome.failCommit).2 = false ∧
    (write_readings
      { connected := true, write_count := 0, error_count := 0,
        last_write_time := none, store := [] }
      [sampleReading] 3 true DbOutcome.failCommit).1.error_count = 1 ∧
    (write_readings
      { connected := true, write_count := 0, error_count := 0,
        last_write_time := none, store := [] }
      [sampleReading] 3 true DbOutcome.failCommit).1.connected = false ∧
    (write_readings
      { connected := true, write_count := 0, error_count := 0,
        last_write_time := none, store := [] }
      [sampleReading] 3 true DbOutcome.failCommit).1.store = [] :=
  write_readings_failure_semantics
    { connected := true, write_count := 0, error_count := 0,
      last_write_time := none, store := [] }
    [sampleReading] 3 true DbOutcome.failCommit
    (by simp) (Or.inl rfl) (Or.inr rfl)

/-- C7 counterexample: a call that fails at the final commit returns false
yet bumps the cumulative write count (by the batch size) and sets the
last-write timestamp, because the source updates both inside the session
block before `get_session` commits (database.py lines 152-153): the claim
that every failed call leaves them unchanged is false. -/
theorem commit_failure_still_counts :
    (write_readings
      { connected := true, write_count := 0, error_count := 0,
        last_write_time := none, store := [] }
      [sampleReading] 5 true DbOutcome.failCommit).2 = false ∧
    (write_readings
      { connected := true, write_count := 0, error_count := 0,
        last_write_time := none, store := [] }
      [sampleReading] 5 true DbOutcome.failCommit).1.write_count = 1 ∧
    (write_readings
      { connected := true, write_count := 0, error_count := 0,
        last_write_time := none, store := [] }
      [sampleReading] 5 true DbOutcome.failCommit).1.last_write_time =
      some 5 := by
  refine ⟨rfl, rfl, rfl⟩

/-- C7 (amended): the write count and last-write timestamp advance exactly
when every per-row insert succeeds.  (1) A call failing on reconnect
leaves both unchanged; (2) a call failing at some insert leaves both
unchanged; (3) a successful call adds the batch size to the write count
and sets the timestamp; and (4) a call whose inserts all succeed but whose
final commit fails also adds the batch size and sets the timestamp even
though it returns false. -/
theorem write_count_semantics (st : WriterState)
    (readings : List ParsedReading) (now : Nat) (connectOk : Bool)
    (outcome : DbOutcome) (hne : readings ≠ []) :
    (st.connected = false → connectOk = false →
      (write_readings st readings now connectOk outcome).2 = false ∧
      (write_readings st readings now connectOk outcome).1.write_count =
        st.write_count ∧
      (write_readings st readings now connectOk outcome).1.last_write_time
        = st.last_write_time) ∧
    (∀ i, outcome = DbOutcome.failExec i → i < readings.length →
      (st.connected = true ∨ connectOk = true) →
      (write_readings st readings now connectOk outcome).2 = false ∧
      (write_readings st readings now connectOk outcome).1.write_count =
        st.write_count ∧
      (write_readings st readings now connectOk outcome).1.last_write_time
        = st.last_write_time) ∧
    ((write_readings st readings now connectOk outcome).2 = true →
      (write_readings st readings now connectOk outcome).1.write_count =
        st.write_count + readings.length ∧
      (write_readings st readings now connectOk outcome).1.last_write_time
        = some now) ∧
    (outcome = DbOutcome.failCommit →
      (st.connected = true ∨ connectOk = true) →
      (write_readings st readings now connectOk outcome).2 = false ∧
      (write_readings st readings now connectOk outcome).1.write_count =
        st.write_count + readings.length ∧
      (write_readings st readings now connectOk outcome).1.last_write_time
        = some now) := by
  have hb : readings.isEmpty = false := by
    cases readings with
    | nil => exact absurd rfl hne
    | cons x xs => rfl
  refine ⟨?_, ?_, ?_, ?_⟩
  · intro h1 h2
    simp [write_readings, hb, h1, h2]
  · rintro i rfl hi hc
    rcases hc with hc | hc <;>
      by_cases hcon2 : st.connected = true <;>
        simp_all [write_readings]
  · intro hok
    rcases outcome with _ | i | _
    · by_cases hcon2 : st.connected = true
      · simp [write_readings, hb, hcon2]
      · by_cases hco : connectOk = true
        · simp [write_readings, hb, hcon2, hco]
        · simp [write_readings, hb, hcon2, hco] at hok
    · by_cases hi : i < readings.length
      · by_cases hcon2 : st.connected = true
        · simp [write_readings, hb, hcon2, hi] at hok
        · by_cases hco : connectOk = true
          · simp [write_readings, hb, hcon2, hco, hi] at hok
          · simp [write_readings, hb, hcon2, hco] at hok
      · by_cases hcon2 : st.connected = true
        · simp [write_readings, hb, hcon2, hi]
        · by_cases hco : connectOk = true
          · simp [write_readings, hb, hcon2, hco, hi]
          · simp [write_readings, hb, hcon2, hco] at hok
    · by_cases hcon2 : st.connected = true
      · simp [write_readings, hb, hcon2] at hok
      · by_cases hco : connectOk = true
        · simp [write_readings, hb, hcon2, hco] at hok
        · simp [write_readings, hb, hcon2, hco] at hok
  · rintro rfl hc
    rcases hc with hc | hc <;>
      by_cases hcon2 : st.connected = true <;>
        simp_all [write_readings]

/-- C7 witness: the commit-failure conjunct at a concrete input — write
count advances from 0 to 1 and the timestamp is set although the call
returns false. -/
theorem write_count_semantics_witness :
    (write_readings
      { connected := true, write_count := 0, error_count := 0,
        last_write_time := none, store := [] }
      [sampleReading] 7 false DbOutcome.failCommit).2 = false ∧
    (write_readings
      { connected := true, write_count := 0, error_count := 0,
        last_write_time := none, store := [] }
      [sampleReading] 7 false DbOutcome.failCommit).1.write_count = 1 ∧
    (write_readings
      { connected := true, write_count := 0, error_count := 0,
        last_write_time := none, store := [] }
      [sampleReading] 7 false DbOutcome.failCommit).1.last_write_time =
      some 7 :=
  (write_count_semantics
    { connected := true, write_count := 0, error_count := 0,
      last_write_time := none, store := [] }
    [sampleReading] 7 false DbOutcome.failCommit (by simp)).2.2.2 rfl
    (Or.inl rfl)

/-- Helper: a run of adds that never lets the buffer reach the batch size
only appends, and flushes nothing. -/
theorem addAll_no_flush (bs : Nat) (rs : List ParsedReading) :
    ∀ (buf : List ParsedReading) (fl : List (List ParsedReading)),
      buf.length + rs.length < bs →
      addAll bs { batch := buf, flushed := fl } rs =
        { batch := buf ++ rs, flushed := fl } := by
  induction rs with
  | nil =>
    intro buf fl _
    simp [addAll]
  | cons r rest ih =>
    intro buf fl h
    simp only [List.length_cons] at h
    have hfull : ¬ bs ≤ (buf ++ [r]).length := by
      simp only [List.length_append, List.length_cons, List.length_nil]
      omega
    have hstep : addReading bs { batch := buf, flushed := fl } r =
        { batch := buf ++ [r], flushed := fl } := by
      unfold addReading
      rw [if_neg hfull]
    show addAll bs (addReading bs { batch := buf, flushed := fl } r) rest = _
    rw [hstep, ih (buf ++ [r]) fl (by
      simp only [List.length_append, List.length_cons, List.length_nil]
      omega)]
    simp

/-- Helper: starting under the threshold, a run of adds that crosses the
batch size once (total strictly below twice the size) flushes exactly one
batch, consisting of the first `bs` readings in arrival order, and leaves
the rest pending. -/
theorem addAll_one_flush (bs : Nat) :
    ∀ (rs buf : List ParsedReading) (fl : List (List ParsedReading)),
      buf.length < bs →
      bs ≤ buf.length + rs.length →
      buf.length + rs.length < 2 * bs →
      addAll bs { batch := buf, flushed := fl } rs =
        { batch := (buf ++ rs).drop bs,
          flushed := fl ++ [(buf ++ rs).take bs] } := by
  intro rs
  induction rs with
  | nil =>
    intro buf fl h1 h2 h3
    simp only [List.length_nil] at h2
    omega
  | cons r rest ih =>
    intro buf fl h1 h2 h3
    simp only [List.length_cons] at h2 h3
    by_cases hfull : bs ≤ (buf ++ [r]).length
    · have hlen : (buf ++ [r]).length = bs := by
        simp only [List.length_append, List.length_cons, List.length_nil]
          at hfull ⊢
        omega
      have hstep : addReading bs { batch := buf, flushed := fl } r =
          { batch := [], flushed := fl ++ [buf ++ [r]] } := by
        unfold addReading
        rw [if_pos hfull]
      show addAll bs (addReading bs { batch := buf, flushed := fl } r)
          rest = _
      rw [hstep, addAll_no_flush bs rest [] (fl ++ [buf ++ [r]]) (by
        simp only [List.length_append, List.length_cons, List.length_nil]
          at hlen
        simp only [List.length_nil]
        omega)]
      have hsplit : buf ++ r :: rest = (buf ++ [r]) ++ rest := by simp
      rw [hsplit, ← hlen, List.drop_left, List.take_left]
      simp
    · have hstep : addReading bs { batch := buf, flushed := fl } r =
          { batch := buf ++ [r], flushed := fl } := by
        unfold addReading
        rw [if_neg hfull]
      show addAll bs (addReading bs { batch := buf, flushed := fl } r)
          rest = _
      have hl : (buf ++ [r]).length = buf.length + 1 := by simp
      rw [hstep, ih (buf ++ [r]) fl (by
          simp only [List.length_append, List.length_cons, List.length_nil]
            at hfull
          omega)
        (by rw [hl]; omega) (by rw [hl]; omega)]
      simp

/-- C5: for every batch size and every run of `N` sequential adds into an
initially empty buffer with `batch_size ≤ N < 2 * batch_size`, exactly one
flush is handed to the storage writer, its batch is exactly the first
`batch_size` readings in insertion order, and the remaining
`N - batch_size` readings stay pending in the buffer. -/
theorem batcher_single_flush (bs : Nat) (rs : List ParsedReading)
    (h1 : bs ≤ rs.length) (h2 : rs.length < 2 * bs) :
    addAll bs { batch := [], flushed := [] } rs =
      { batch := rs.drop bs, flushed := [rs.take bs] } := by
  have h0 : 0 < bs := by omega
  have h := addAll_one_flush bs rs [] [] (by simpa using h0)
    (by simpa using h1) (by simpa using h2)
  simpa using h

/-- C5 witness: with batch size 2 and three distinct readings, the first
two are flushed as one batch, in order, and the third stays pending. -/
theorem batcher_single_flush_witness :
    addAll 2 { batch := [], flushed := [] }
      [sampleReading, sampleReading2, sampleReading3] =
      { batch := [sampleReading, sampleReading2, sampleReading3].drop 2,
        flushed := [[sampleReading, sampleReading2, sampleReading3].take 2]
      } :=
  batcher_single_flush 2 [sampleReading, sampleReading2, sampleReading3]
    (by simp) (by simp)

/-- C8 counterexample: a message whose payload is not valid JSON is dropped
without invoking the callback, but contrary to the claim the drop is not
counted in the decode-error statistic: the whole client state — the
error counter included — is unchanged (`_on_message` catches
`json.JSONDecodeError`, logs at debug level, and returns). -/
theorem nonjson_drop_not_counted :
    on_message mqttInit "zigbee2mqtt/office" DecodeResult.notJson 3 =
      mqttInit ∧
    mqttInit.error_count = 0 ∧ mqttInit.has_callback = true ∧
    mqttInit.callback_calls = [] :=
  ⟨rfl, rfl, rfl, rfl⟩

/-- C8 (amended): undecodable and non-object payloads never reach the
callback and never raise, but only UTF-8 decode failures are counted in
the error statistic: (1) a JSON parse failure leaves the state — counters
and callback record included — entirely unchanged; (2) a UTF-8 decode
failure increments the error counter and changes nothing else; (3) a
decoded non-object value increments the messages-received counter and
last-message time, without touching the error counter or the callback. -/
theorem on_message_drop_semantics (st : MqttState) (topic : String)
    (now : Nat) :
    (on_message st topic DecodeResult.notJson now = st) ∧
    (on_message st topic DecodeResult.notUtf8 now =
      { st with error_count := st.error_count + 1 }) ∧
    (∀ v : JsonValue, DecodeResult.isObj (DecodeResult.json v) = false →
      on_message st topic (DecodeResult.json v) now =
        { st with message_count := st.message_count + 1,
                  last_message_time := some now }) := by
  refine ⟨rfl, rfl, ?_⟩
  intro v hv
  cases v with
  | obj fields => simp [DecodeResult.isObj] at hv
  | null => rfl
  | bool b => rfl
  | num q => rfl
  | str s => rfl
  | arr elems => rfl

/-- C8 witness: a decoded non-object payload (the number 42) bumps the
messages-received counter, not the error counter, and the callback record
stays empty. -/
theorem on_message_drop_semantics_witness :
    on_message mqttInit "zigbee2mqtt/office"
      (DecodeResult.json (JsonValue.num 42)) 9 =
      { mqttInit with message_count := mqttInit.message_count + 1,
                      last_message_time := some 9 } :=
  (on_message_drop_semantics mqttInit "zigbee2mqtt/office" 9).2.2
    (JsonValue.num 42) rfl

/-- Helper: appending one event to a trace extends the scan by one step. -/
theorem scanAcq_append (tr : List (Bool × Act)) (e : Bool × Act) :
    ∀ f : Bool, scanAcq (tr ++ [e]) f =
      ((scanAcq tr f).1 || badOne e (scanAcq tr f).2,
        stepFlag e (scanAcq tr f).2) := by
  induction tr with
  | nil =>
    intro f
    simp [scanAcq]
  | cons x rest ih =>
    intro f
    simp only [List.cons_append, scanAcq, List.append_eq]
    rw [ih (stepFlag x f)]
    simp [Bool.or_assoc]

/-- Helper: the invariant holds initially. -/
theorem sysInit_inv : SysInv sysInit := by
  refine ⟨by simp [sysInit, progATails, addFlushProg],
    by simp [sysInit, progBTails, addProg], ?_, ?_,
    by simp [scanAcq, sysInit, writeInFlight, addFlushProg]⟩
  · intro h1 _
    exact absurd rfl h1
  · intro h1 _
    exact absurd rfl h1

/-- Helper: every scheduling step preserves the invariant. -/
theorem step_preserves_inv (s : Sys) (who : Bool) (h : SysInv s) :
    SysInv (step s who) := by
  obtain ⟨pA, pB, owner, tr⟩ := s
  obtain ⟨hA, hB, hLA, hLB, hscan⟩ := h
  simp only [progATails, progBTails, List.mem_cons, List.not_mem_nil,
    or_false] at hA hB
  cases who <;>
    rcases hA with rfl | rfl | rfl | rfl | rfl | rfl | rfl <;>
      rcases hB with rfl | rfl | rfl | rfl <;>
        rcases owner with _ | _ | _ <;>
          simp_all [SysInv, step, scanAcq_append, badOne, stepFlag,
            progATails, progBTails, addFlushProg, addProg, writeInFlight]

/-- Helper: the invariant holds after any finite schedule. -/
theorem run_inv (sched : List Bool) : SysInv (run sched) := by
  suffices h : ∀ s : Sys, SysInv s → SysInv (sched.foldl step s) from
    h sysInit sysInit_inv
  induction sched with
  | nil => intro s hs; exact hs
  | cons w rest ih =>
    intro s hs
    exact ih (step s w) (step_preserves_inv s w hs)

/-- C4 counterexample: under no interleaving of a size-triggered `add`
(task A) with a concurrent `add` (task B) does task B acquire the batch
buffer's lock while task A's flushed batch is being written to storage —
`_flush` is awaited inside `async with self._lock` (database.py lines
199-204), so the lock is held across
`await loop.run_in_executor(None, self.db_writer.write_readings, ...)`
(lines 229-234), refuting the claim that a concurrent add can acquire the
lock and complete during the write. -/
theorem no_concurrent_add_during_write :
    ¬ ∃ sched : List Bool, (scanAcq (run sched).trace false).1 = true := by
  rintro ⟨sched, hbad⟩
  have h := (run_inv sched).2.2.2.2
  rw [h] at hbad
  simp at hbad

/-- C4 (amended): the batcher's exclusive lock is held across the storage
write I/O of a size-triggered flush.  (1) In every interleaving, the
concurrent add never acquires the lock while the write is in flight;
(2) after task A has executed acquire, append, swap and writeStart, it
still owns the lock while its write is in flight (the buffer swap having
already happened before the write); and (3) a concurrent add that is
offered every chance to run during the write makes no progress at all
until the write completes — the write does block message reception on the
batching path. -/
theorem flush_write_holds_lock :
    (∀ sched : List Bool, (scanAcq (run sched).trace false).1 = false) ∧
    (run [true, true, true, true]).lockOwner = some true ∧
    writeInFlight (run [true, true, true, true]) = true ∧
    (run [true, true, true, true, false, false, false]).progB = addProg := by
  refine ⟨?_, by decide, by decide, by decide⟩
  intro sched
  rw [(run_inv sched).2.2.2.2]
